import Mathlib

/-!
Verification of the matching-and-registry subsystem of the Jungle-of-Agents
repository: the text normalizer and three-metric similarity scorer
(`similarity_search.py`), the threshold matcher
(`SimilaritySearch.find_similar_agent`), the JSON-backed agent registry
(`agent_storage.py`), and the orchestrator boundary (`master_agent.py`).

Modelling conventions:
* Python floats are idealized as exact arithmetic: the Jaccard and
  keyword-overlap metrics take values in `ℚ`, the cosine metric and the
  combined score in `ℝ` (the Euclidean norm needs `Real.sqrt`).
* A JSON agent dictionary is modelled as a record of `Option` fields; an
  absent key and `dict.get` returning its default both map to `none`.
* Character handling is at Unicode-code-point level via `Char.toNat`;
  `str.lower()` is modelled by `Char.toLower` (identical case shift on the
  basic latin range, which is the only range the kept-character class
  `[a-zA-Z0-9\s]` lets through).
-/

/-- Agent record: the shape of the JSON dictionaries stored in
`agents_storage.json` and passed between the components.  Every access in
the source goes through `dict.get`, so each field is optional. -/
structure Agent where
  name : Option String
  description : Option String
  system_prompt : Option String
  task_type : Option String
  created_by : Option String
deriving DecidableEq

/-- ASCII whitespace: the characters matched by the regex class `\s` in
`_normalize_text` and split on by Python `str.split()` (restricted to the
ASCII range, the only characters the normalizer can emit). -/
def wsChar (c : Char) : Bool :=
  c.toNat = 32 || c.toNat = 9 || c.toNat = 10 || c.toNat = 11 ||
    c.toNat = 12 || c.toNat = 13

/-- Characters kept by the substitution `re.sub(r'[^a-zA-Z0-9\s]', ' ', text)`. -/
def keepChar (c : Char) : Bool :=
  (97 ≤ c.toNat && c.toNat ≤ 122) || (65 ≤ c.toNat && c.toNat ≤ 90) ||
    (48 ≤ c.toNat && c.toNat ≤ 57) || wsChar c

/-- `text.lower()` in `_normalize_text` (ASCII case shift). -/
def lowerStep (l : List Char) : List Char := l.map Char.toLower

/-- `re.sub(r'[^a-zA-Z0-9\s]', ' ', text)` in `_normalize_text`. -/
def substStep (l : List Char) : List Char :=
  l.map fun c => if keepChar c then c else ' '

/-- `re.sub(r'\s+', ' ', text)` in `_normalize_text`: every maximal
whitespace run becomes a single space. -/
def collapseStep : List Char → List Char
  | [] => []
  | [c] => if wsChar c then [' '] else [c]
  | c :: d :: rest =>
      if wsChar c && wsChar d then collapseStep (d :: rest)
      else (if wsChar c then ' ' else c) :: collapseStep (d :: rest)

/-- `text.strip()` in `_normalize_text`: drop leading and trailing
whitespace. -/
def stripStep (l : List Char) : List Char :=
  ((l.dropWhile wsChar).reverse.dropWhile wsChar).reverse

/-- `SimilaritySearch._normalize_text`: lower-case, replace the characters
outside `[a-zA-Z0-9\s]` by spaces, collapse whitespace runs, strip. -/
def normalize_text (s : String) : String :=
  String.mk (stripStep (collapseStep (substStep (lowerStep s.data))))

/-- Python `str.split()` (no separator): split on whitespace runs and drop
the empty pieces. -/
def pySplit (s : String) : List String :=
  ((s.data.splitOnP wsChar).map fun l => String.mk l).filter fun t => t ≠ ""

/-- `self._normalize_text(text).split()`, the tokenization shared by all
three similarity metrics. -/
def pyWords (t : String) : List String := pySplit (normalize_text t)

/-! ### Character-level facts used for the normalizer -/

/-- Character class of normalizer output: lower-case letters, digits, or a
single space. -/
def normChar (c : Char) : Bool :=
  (97 ≤ c.toNat && c.toNat ≤ 122) || (48 ≤ c.toNat && c.toNat ≤ 57) || c = ' '

/-- Character class after lower-casing and substitution: lower-case
letters, digits, or whitespace. -/
def preGood (c : Char) : Bool :=
  (97 ≤ c.toNat && c.toNat ≤ 122) || (48 ≤ c.toNat && c.toNat ≤ 57) || wsChar c

/-! ### Similarity metrics (`similarity_search.py`)

Floats are idealized as exact arithmetic: the Jaccard and keyword-overlap
metrics are rational, the cosine metric and combined score live in `ℝ`
because of the Euclidean norms. -/

/-- Token set of a text: `set(self._normalize_text(text).split())`. -/
def tokenSet (t : String) : Finset String := (pyWords t).toFinset

/-- `SimilaritySearch._jaccard_similarity`. -/
def _jaccard_similarity (text1 text2 : String) : ℚ :=
  let tokens1 := tokenSet text1
  let tokens2 := tokenSet text2
  if tokens1 = ∅ ∧ tokens2 = ∅ then 1
  else if tokens1 = ∅ ∨ tokens2 = ∅ then 0
  else
    let intersection := (tokens1 ∩ tokens2).card
    let union := (tokens1 ∪ tokens2).card
    if 0 < union then (intersection : ℚ) / union else 0

/-- Keyword set: tokens longer than 3 characters. -/
def keywordSet (t : String) : Finset String :=
  ((pyWords t).filter fun w => 3 < w.length).toFinset

/-- `SimilaritySearch._keyword_overlap_similarity`. -/
def _keyword_overlap_similarity (text1 text2 : String) : ℚ :=
  let keywords1 := keywordSet text1
  let keywords2 := keywordSet text2
  if keywords1 = ∅ ∧ keywords2 = ∅ then 1
  else if keywords1 = ∅ ∨ keywords2 = ∅ then 0
  else
    let overlap := (keywords1 ∩ keywords2).card
    let max_possible := max keywords1.card keywords2.card
    if 0 < max_possible then (overlap : ℚ) / max_possible else 0

/-- Vocabulary `list(set(words1 + words2))` of `_cosine_similarity_simple`
(the iteration order of the Python set is immaterial: every use below is a
sum over the vocabulary). -/
def cosVocab (t1 t2 : String) : List String := (pyWords t1 ++ pyWords t2).dedup

/-- Term-frequency vector of a text over a vocabulary. -/
def cosVec (t : String) (vocab : List String) : List ℕ :=
  vocab.map fun w => (pyWords t).count w

/-- `np.dot(vec1, vec2)`. -/
def cosDot (t1 t2 : String) : ℕ :=
  (((cosVec t1 (cosVocab t1 t2)).zip (cosVec t2 (cosVocab t1 t2))).map
    fun p => p.1 * p.2).sum

/-- `np.linalg.norm` of an integer term-frequency vector. -/
noncomputable def cosMag (t : String) (vocab : List String) : ℝ :=
  Real.sqrt ((((cosVec t vocab).map fun x => x * x).sum : ℕ) : ℝ)

/-- `SimilaritySearch._cosine_similarity_simple`. -/
noncomputable def _cosine_similarity_simple (text1 text2 : String) : ℝ :=
  if cosVocab text1 text2 = [] then 1
  else if cosMag text1 (cosVocab text1 text2) = 0 ∨ cosMag text2 (cosVocab text1 text2) = 0
    then 0
  else (cosDot text1 text2 : ℝ) /
    (cosMag text1 (cosVocab text1 text2) * cosMag text2 (cosVocab text1 text2))

/-- The comparison text of an agent:
`f"{agent.get('description', '')} {agent.get('task_type', '')} {agent.get('name', '')}"`. -/
def agentText (agent : Agent) : String :=
  agent.description.getD "" ++ " " ++ agent.task_type.getD "" ++ " " ++ agent.name.getD ""

/-- `SimilaritySearch._calculate_similarity`: weighted sum of the three
metrics with weights `[0.4, 0.3, 0.3]`, clamped to at most `1.0`. -/
noncomputable def _calculate_similarity (query : String) (agent : Agent) : ℝ :=
  let agent_text := agentText agent
  let scores : List ℝ :=
    [((_jaccard_similarity query agent_text : ℚ) : ℝ),
     ((_keyword_overlap_similarity query agent_text : ℚ) : ℝ),
     _cosine_similarity_simple query agent_text]
  let weights : List ℝ := [0.4, 0.3, 0.3]
  let weighted_score := ((scores.zip weights).map fun p => p.1 * p.2).sum
  min weighted_score 1

/-! ### The matcher (`SimilaritySearch.find_similar_agent`) -/

/-- The scan loop of `find_similar_agent`: fold over the agents carrying
`(best_agent, best_score)`, updating whenever `score > best_score`. -/
noncomputable def findLoop (f : Agent → ℝ) :
    List Agent → Option Agent × ℝ → Option Agent × ℝ
  | [], acc => acc
  | agent :: rest, (best_agent, best_score) =>
      let score := f agent
      if best_score < score then findLoop f rest (some agent, score)
      else findLoop f rest (best_agent, best_score)

/-- `SimilaritySearch.find_similar_agent`: empty registry short-circuits to
`none`; otherwise scan with the running best initialized to `(None, 0.09)`
and return the best agent only when `best_score >= threshold` and a best
agent was recorded (the Python truthiness test `and best_agent`). -/
noncomputable def find_similar_agent (threshold : ℝ) (query : String)
    (agents : List Agent) : Option Agent :=
  if agents = [] then none
  else
    let r := findLoop (fun agent => _calculate_similarity query agent) agents (none, 0.09)
    if threshold ≤ r.2 ∧ r.1.isSome then r.1 else none

/-! ### The registry (`agent_storage.py`)

The backing JSON file is modelled by `StoredFile`, separating the states
`_ensure_storage_file` treats differently: absent; bytes that are not
valid UTF-8 (`json.load` then raises `UnicodeDecodeError`, which the
`except (json.JSONDecodeError, IOError)` clause does *not* catch); UTF-8
text that is not valid JSON (`json.JSONDecodeError`, caught); JSON that
parses to a non-object such as an array, string or number (there is no
`agents` field to find, the membership test fails and
`data["agents"] = []` raises `TypeError`, uncaught; for numbers the `in`
test itself raises); and a parsed top-level object whose optional
`agents` field holds the collection.  Disk writes are modelled as
succeeding, yielding the new file state. -/

inductive StoredFile
  | missing
  | undecodable
  | unparsable
  | nonObject
  | valid (ag : Option (List Agent))
deriving DecidableEq

/-- `AgentStorage._ensure_storage_file`: create an empty store when the
file is absent; reset to `{"agents": []}` when `json.load` raises
`JSONDecodeError`; add an empty `agents` field when the parsed object
lacks it; leave a well-formed store alone.  The `except` clause catches
only `json.JSONDecodeError` and `IOError`, so the `UnicodeDecodeError`
from undecodable bytes and the `TypeError` from a parsed non-object
escape to the caller (`Except.error`); in the non-raising cases the
result is the on-disk state after initialization. -/
def _ensure_storage_file : StoredFile → Except String StoredFile
  | .missing => Except.ok (.valid (some []))
  | .undecodable => Except.error "UnicodeDecodeError"
  | .unparsable => Except.ok (.valid (some []))
  | .nonObject => Except.error "TypeError"
  | .valid none => Except.ok (.valid (some []))
  | .valid (some l) => Except.ok (.valid (some l))

/-- `AgentStorage.list_agents`: `data.get("agents", [])`, with the broad
`except Exception` clause returning `[]` on any failed load (including
the undecodable and non-object stores, whose `json.load` or `.get`
raises inside the `try`). -/
def list_agents : StoredFile → List Agent
  | .valid (some l) => l
  | .valid none => []
  | .missing => []
  | .undecodable => []
  | .unparsable => []
  | .nonObject => []

/-- The scan of `save_agent`: index of the first stored record whose
`name` equals the incoming record's `name` (`existing_agent.get("name") ==
agent.get("name")`, so two absent names also match). -/
def findAgentIdx (name : Option String) : List Agent → Option ℕ
  | [] => none
  | r :: rest =>
      if r.name = name then some 0
      else (findAgentIdx name rest).map (· + 1)

/-- `AgentStorage.save_agent` acting on the stored collection: replace the
first record with a matching name in place, otherwise append. -/
def save_agent (agent : Agent) (agents : List Agent) : List Agent :=
  match findAgentIdx agent.name agents with
  | some i => agents.set i agent
  | none => agents ++ [agent]

/-- The grouping key used by `get_storage_stats`:
`agent.get("task_type", "unknown")`. -/
def typeKey (a : Agent) : String := a.task_type.getD "unknown"

/-- The `type_counts` dictionary built by `get_storage_stats`, modelled as
its lookup function with default `0`
(`type_counts[t] = type_counts.get(t, 0) + 1`). -/
def type_counts (agents : List Agent) : String → ℕ :=
  agents.foldl
    (fun m ag k => if k = typeKey ag then m (typeKey ag) + 1 else m k)
    fun _ => 0

/-- Result of `AgentStorage.get_storage_stats` (the `storage_file` and
`file_exists` entries carry no registry content and are omitted). -/
structure StorageStats where
  total_agents : ℕ
  agents_by_type : String → ℕ

/-- `AgentStorage.get_storage_stats`. -/
def get_storage_stats (s : StoredFile) : StorageStats :=
  let agents := list_agents s
  { total_agents := agents.length
    agents_by_type := type_counts agents }

/-! ### The orchestrator (`master_agent.py`)

The three external capabilities (Analyzer, Creator, Responder — the
`generate_content` calls) are oracles whose behavior on the current
request is a `Capabilities` value: `.error e` is a raised exception
(API failure, or `json.loads` failure on the returned text, which the
same `except` clause catches), `.ok none` is a response with empty or
missing text, `.ok (some v)` a usable result.  A Python `raise`
propagates as `Except.error` through the monad; the boundary
`try/except` of `process_request` is the final `match`. -/

structure TaskAnalysis where
  task_type : Option String
  agent_description : Option String
  complexity : Option String
  requires_delegation : Option Bool
deriving DecidableEq

structure Capabilities where
  analyze : Except String (Option TaskAnalysis)
  create : Except String (Option Agent)
  respond : Except String (Option String)
  direct : Except String (Option String)

/-- The fallback analysis returned by the `except` branch of
`MasterAgent._analyze_task`. -/
def fallback_analysis : TaskAnalysis :=
  { task_type := some "general"
    agent_description := some "General purpose assistant"
    complexity := some "simple"
    requires_delegation := some false }

/-- `MasterAgent._analyze_task`: parse the Analyzer response; an empty
response raises `ValueError`, and any raise inside the `try` is caught
and mapped to the fallback analysis.  Total: it never raises. -/
def _analyze_task (caps : Capabilities) : TaskAnalysis :=
  match caps.analyze with
  | .ok (some analysis) => analysis
  | .ok none => fallback_analysis
  | .error _ => fallback_analysis

/-- The deterministic fallback record built by the `except` branch of
`MasterAgent._create_new_agent`. -/
def fallback_agent (ta : TaskAnalysis) : Agent :=
  { name := some (ta.task_type.getD "General" ++ "Agent")
    description := some (ta.agent_description.getD "General purpose assistant")
    system_prompt := some ("You are a helpful assistant specializing in " ++
      ta.task_type.getD "general tasks" ++ ".")
    task_type := some (ta.task_type.getD "general")
    created_by := some "MasterAgent" }

/-- `MasterAgent._create_new_agent`: on a parsed Creator response, stamp
`created_by`; on failure or empty response, the fallback record.  Total. -/
def _create_new_agent (caps : Capabilities) (ta : TaskAnalysis) : Agent :=
  match caps.create with
  | .ok (some agent_data) => { agent_data with created_by := some "MasterAgent" }
  | .ok none => fallback_agent ta
  | .error _ => fallback_agent ta

/-- A Python `agent['name']` subscript: raises `KeyError` when the key is
absent. -/
def getItemName (a : Agent) : Except String String :=
  match a.name with
  | some s => Except.ok s
  | none => Except.error "KeyError: name"

/-- `str(agent.get('name'))` inside an f-string: `None` renders as the
text `None`. -/
def pyStrName (a : Agent) : String := a.name.getD "None"

def delegate_empty_msg : String := "The specialized agent was unable to provide a response."

def delegate_error_msg (agent : Agent) (e : String) : String :=
  "Error occurred while delegating to " ++ pyStrName agent ++ ": " ++ e

def direct_empty_msg : String :=
  "I" ++ String.mk [Char.ofNat 39] ++ "m unable to process your request at the moment."

def direct_error_msg (e : String) : String := "I encountered an error: " ++ e

def boundary_error_msg (e : String) : String :=
  "I encountered an error while processing your request: " ++ e

/-- `MasterAgent._delegate_task`: the Responder reply if nonempty, a fixed
message on an empty reply, an error message naming the agent on a raise.
Total: every failure is mapped to a string at this call site. -/
def _delegate_task (caps : Capabilities) (agent : Agent) : String :=
  match caps.respond with
  | .ok (some t) => if t = "" then delegate_empty_msg else t
  | .ok none => delegate_empty_msg
  | .error e => delegate_error_msg agent e

/-- `MasterAgent._handle_directly`.  Total, same pattern. -/
def _handle_directly (caps : Capabilities) : String :=
  match caps.direct with
  | .ok (some t) => if t = "" then direct_empty_msg else t
  | .ok none => direct_empty_msg
  | .error e => direct_error_msg e

/-- `MasterAgent._find_or_create_agent`: no delegation needed → `none`;
otherwise match against the stored collection (threshold `0.09`, the
`SimilaritySearch()` default), else create (and persist) a new agent.
The `print(f"... {agent['name']}")` subscripts can raise `KeyError`,
modelled by `getItemName`; `save_agent` itself never raises (its
`try/except` returns a bool that the caller ignores). -/
noncomputable def _find_or_create_agent (caps : Capabilities) (stored : List Agent)
    (ta : TaskAnalysis) : Except String (Option Agent) :=
  if ta.requires_delegation.getD false = false then Except.ok none
  else
    match find_similar_agent 0.09 (ta.agent_description.getD "") stored with
    | some existing_agent => do
        let _ ← getItemName existing_agent
        pure (some existing_agent)
    | none => do
        let new_agent := _create_new_agent caps ta
        let _ ← getItemName new_agent
        pure (some new_agent)

/-- The `try` block of `MasterAgent.process_request`: analyze,
find-or-create, then delegate (after the `print` subscript
`agent['name']`) or handle directly.  An `Except.error` is a raise
propagating out of the block. -/
noncomputable def process_request_body (caps : Capabilities) (stored : List Agent) :
    Except String String := do
  let task_analysis := _analyze_task caps
  let agent ← _find_or_create_agent caps stored task_analysis
  match agent with
  | some ag => do
      let _ ← getItemName ag
      pure (_delegate_task caps ag)
  | none => pure (_handle_directly caps)

/-- `MasterAgent.process_request`: the `try` block inside the boundary
`try/except`; the `except` branch turns any raise into an apology string,
so the result is `Except.ok` of the returned reply (`Except.error` would
be an unhandled raise escaping to the caller). -/
noncomputable def process_request (caps : Capabilities) (stored : List Agent)
    (request : String) : Except String String :=
  match process_request_body caps stored with
  | .ok reply => Except.ok reply
  | .error e => Except.ok (boundary_error_msg e)

/-- Concrete record used to exercise the matcher and registry theorems
(`{"name": "bbbb", "description": "cccc", "task_type": "dddd"}`). -/
def agentB : Agent :=
  { name := some "bbbb", description := some "cccc", system_prompt := none
    task_type := some "dddd", created_by := none }

/-- Concrete record whose `task_type` is present but empty. -/
def agentE : Agent :=
  { name := some "eeee", description := none, system_prompt := none
    task_type := some "", created_by := none }

/-- Capabilities that all raise, used to exercise the fallback paths. -/
def capsFail : Capabilities :=
  { analyze := Except.error "x", create := Except.error "x"
    respond := Except.error "x", direct := Except.error "x" }

/-! ### Character-level facts used in the proofs -/

theorem toNat_Char_ofNat {n : Nat} (h : n < 55296) : (Char.ofNat n).toNat = n := by
  simp [Char.ofNat, Nat.isValidChar, Or.inl h, Char.ofNatAux, Char.toNat, UInt32.toNat,
    BitVec.toNat_ofNatLt]

theorem normChar_toNat {c : Char} (h : normChar c = true) :
    (97 ≤ c.toNat ∧ c.toNat ≤ 122) ∨ (48 ≤ c.toNat ∧ c.toNat ≤ 57) ∨ c.toNat = 32 := by
  simp only [normChar, Bool.or_eq_true, Bool.and_eq_true, decide_eq_true_eq] at h
  rcases h with (h1 | h2) | h3
  · exact Or.inl h1
  · exact Or.inr (Or.inl h2)
  · right; right; rw [h3]; rfl

theorem normChar_ws {c : Char} (h : normChar c = true) (hw : wsChar c = true) : c = ' ' := by
  have h32 : c.toNat = 32 := by
    rcases normChar_toNat h with h1 | h1 | h1 <;>
      simp only [wsChar, Bool.or_eq_true, decide_eq_true_eq] at hw <;> omega
  have hch := Char.ofNat_toNat c
  rw [h32] at hch
  exact hch.symm

theorem preGood_of_not_ws {c : Char} (hp : preGood c = true) (hw : wsChar c = false) :
    normChar c = true := by
  simp only [preGood, Bool.or_eq_true, Bool.and_eq_true, decide_eq_true_eq] at hp
  rcases hp with h1 | h2
  · simp [normChar, h1]
  · rw [h2] at hw
    exact Bool.noConfusion hw

theorem normChar_space : normChar ' ' = true := by decide

/-! ### Stage invariants of `_normalize_text` -/

theorem mem_substStep_lowerStep (l : List Char) :
    ∀ c ∈ substStep (lowerStep l), preGood c := by
  intro c hc
  simp only [substStep, lowerStep, List.map_map, List.mem_map, Function.comp] at hc
  obtain ⟨d, _, rfl⟩ := hc
  by_cases hk : keepChar (Char.toLower d)
  · rw [if_pos hk]
    by_cases hup : 65 ≤ d.toNat ∧ d.toNat ≤ 90
    · have ht : (Char.toLower d).toNat = d.toNat + 32 := by
        simp only [Char.toLower, ge_iff_le, hup, and_self, if_true]
        exact toNat_Char_ofNat (by omega)
      simp only [preGood, Bool.or_eq_true, decide_eq_true_eq, Bool.and_eq_true]
      omega
    · have he : Char.toLower d = d := by
        simp only [Char.toLower, ge_iff_le, hup, if_false]
      rw [he] at hk ⊢
      simp only [keepChar, preGood, Bool.or_eq_true, decide_eq_true_eq, Bool.and_eq_true] at hk ⊢
      rcases hk with ((h1 | h2) | h3) | h4
      · exact Or.inl (Or.inl h1)
      · omega
      · exact Or.inl (Or.inr h3)
      · exact Or.inr h4
  · rw [if_neg hk]
    simp [preGood, wsChar]

theorem collapse_mem (l : List Char) :
    (∀ c ∈ l, preGood c = true) → ∀ c ∈ collapseStep l, normChar c = true := by
  induction l using collapseStep.induct with
  | case1 => simp [collapseStep]
  | case2 c hw =>
      intro _ x hx
      simp only [collapseStep, if_pos hw, List.mem_singleton] at hx
      subst hx
      exact normChar_space
  | case3 c hw =>
      intro h x hx
      simp only [collapseStep, if_neg hw, List.mem_singleton] at hx
      subst hx
      exact preGood_of_not_ws (h x (by simp)) (by simpa using hw)
  | case4 c d rest hcd ih =>
      intro h x hx
      simp only [collapseStep, if_pos hcd] at hx
      exact ih (fun y hy => h y (List.mem_cons_of_mem _ hy)) x hx
  | case5 c d rest hcd ih =>
      intro h x hx
      simp only [collapseStep, if_neg hcd] at hx
      rcases List.mem_cons.mp hx with rfl | hx2
      · by_cases hw : wsChar c
        · simpa [hw] using normChar_space
        · simp only [hw, if_false]
          exact preGood_of_not_ws (h c (by simp)) (by simpa using hw)
      · exact ih (fun y hy => h y (List.mem_cons_of_mem _ hy)) x hx2

theorem collapse_head (d : Char) (rest : List Char) (hd : wsChar d = false) :
    ∃ t, collapseStep (d :: rest) = d :: t := by
  cases rest with
  | nil => exact ⟨[], by simp [collapseStep, hd]⟩
  | cons e r => exact ⟨collapseStep (e :: r), by simp [collapseStep, hd]⟩

theorem collapse_chain (l : List Char) :
    List.Chain' (fun a b => ¬(wsChar a = true ∧ wsChar b = true)) (collapseStep l) := by
  induction l using collapseStep.induct with
  | case1 => simp [collapseStep]
  | case2 c hw => simp [collapseStep, if_pos hw]
  | case3 c hw => simp [collapseStep, if_neg hw]
  | case4 c d rest hcd ih =>
      simpa only [collapseStep, if_pos hcd] using ih
  | case5 c d rest hcd ih =>
      simp only [collapseStep, if_neg hcd]
      rw [Bool.and_eq_true] at hcd
      push_neg at hcd
      by_cases hwc : wsChar c = true
      · have hwd : wsChar d = false := by simpa using hcd hwc
        obtain ⟨t, ht⟩ := collapse_head d rest hwd
        rw [if_pos hwc, ht]
        rw [ht] at ih
        exact List.Chain'.cons (by simp [hwd]) ih
      · rw [if_neg hwc]
        cases hcl : collapseStep (d :: rest) with
        | nil => simp
        | cons y t =>
            rw [hcl] at ih
            refine List.Chain'.cons ?_ ih
            simp [hwc]

/-! ### Identity of each stage on already-normalized text -/

theorem lowerStep_id (l : List Char) (h : ∀ c ∈ l, normChar c = true) : lowerStep l = l := by
  have hid : ∀ c ∈ l, Char.toLower c = id c := by
    intro c hc
    have := normChar_toNat (h c hc)
    simp only [Char.toLower, ge_iff_le, id]
    rw [if_neg (by omega)]
  unfold lowerStep
  rw [List.map_congr_left hid, List.map_id]

theorem substStep_id (l : List Char) (h : ∀ c ∈ l, normChar c = true) : substStep l = l := by
  have hid : ∀ c ∈ l, (if keepChar c then c else ' ') = id c := by
    intro c hc
    have := normChar_toNat (h c hc)
    simp only [id]
    rw [if_pos]
    simp only [keepChar, wsChar, Bool.or_eq_true, Bool.and_eq_true, decide_eq_true_eq]
    omega
  unfold substStep
  rw [List.map_congr_left hid, List.map_id]

theorem collapseStep_id (l : List Char)
    (hm : ∀ c ∈ l, normChar c = true)
    (hc : List.Chain' (fun a b => ¬(wsChar a = true ∧ wsChar b = true)) l) :
    collapseStep l = l := by
  induction l using collapseStep.induct with
  | case1 => rfl
  | case2 c hw =>
      simp only [collapseStep, if_pos hw]
      rw [normChar_ws (hm c (by simp)) hw]
  | case3 c hw => simp [collapseStep, if_neg hw]
  | case4 c d rest hcd ih =>
      exfalso
      rw [List.chain'_cons] at hc
      rw [Bool.and_eq_true] at hcd
      exact hc.1 hcd
  | case5 c d rest hcd ih =>
      simp only [collapseStep, if_neg hcd]
      rw [List.chain'_cons] at hc
      have htail := ih (fun y hy => hm y (List.mem_cons_of_mem _ hy)) hc.2
      rw [htail]
      by_cases hw : wsChar c = true
      · rw [if_pos hw, normChar_ws (hm c (by simp)) hw]
      · rw [if_neg hw]

theorem stripStep_head_not_ws (l : List Char) (a : Char) (t : List Char)
    (h : stripStep l = a :: t) : wsChar a = false := by
  have hdef : stripStep l = List.rdropWhile wsChar (l.dropWhile wsChar) := rfl
  have hpre := List.rdropWhile_prefix wsChar (l.dropWhile wsChar)
  rw [← hdef, h] at hpre
  obtain ⟨t2, ht2⟩ := hpre
  have hm : l.dropWhile wsChar = a :: (t ++ t2) := by
    rw [← ht2]; simp
  have hnot := List.head?_dropWhile_not wsChar l
  rw [hm] at hnot
  simpa using hnot

theorem stripStep_id_of_fixed (l : List Char)
    (h1 : l.dropWhile wsChar = l) (h2 : l.reverse.dropWhile wsChar = l.reverse) :
    stripStep l = l := by
  unfold stripStep
  rw [h1, h2, List.reverse_reverse]

theorem stripStep_stripStep (l : List Char) : stripStep (stripStep l) = stripStep l := by
  apply stripStep_id_of_fixed
  · cases hs : stripStep l with
    | nil => rfl
    | cons a t =>
        rw [List.dropWhile_cons, stripStep_head_not_ws l a t hs]
        simp
  · unfold stripStep
    rw [List.reverse_reverse]
    exact List.dropWhile_idempotent _ _

theorem stripStep_subset (l : List Char) : ∀ c ∈ stripStep l, c ∈ l := by
  intro c hc
  have hdef : stripStep l = List.rdropWhile wsChar (l.dropWhile wsChar) := rfl
  have hpre := List.rdropWhile_prefix wsChar (l.dropWhile wsChar)
  rw [← hdef] at hpre
  have h1 : c ∈ l.dropWhile wsChar := hpre.sublist.subset hc
  exact (List.dropWhile_sublist wsChar).subset h1

theorem stripStep_chain (l : List Char)
    (h : List.Chain' (fun a b => ¬(wsChar a = true ∧ wsChar b = true)) l) :
    List.Chain' (fun a b => ¬(wsChar a = true ∧ wsChar b = true)) (stripStep l) := by
  have hdrop : List.Chain' (fun a b => ¬(wsChar a = true ∧ wsChar b = true))
      (l.dropWhile wsChar) :=
    List.Chain'.suffix h (List.dropWhile_suffix wsChar)
  have hdef : stripStep l = List.rdropWhile wsChar (l.dropWhile wsChar) := rfl
  have hpre := List.rdropWhile_prefix wsChar (l.dropWhile wsChar)
  rw [← hdef] at hpre
  obtain ⟨t2, ht2⟩ := hpre
  rw [← ht2] at hdrop
  exact List.Chain'.left_of_append hdrop

theorem normalize_text_idem (s : String) :
    normalize_text (normalize_text s) = normalize_text s := by
  have hmemM : ∀ c ∈ collapseStep (substStep (lowerStep s.data)), normChar c = true :=
    collapse_mem _ (mem_substStep_lowerStep _)
  have hchM := collapse_chain (substStep (lowerStep s.data))
  have hmemN : ∀ c ∈ stripStep (collapseStep (substStep (lowerStep s.data))),
      normChar c = true :=
    fun c hc => hmemM c (stripStep_subset _ c hc)
  have hchN := stripStep_chain _ hchM
  show String.mk (stripStep (collapseStep (substStep (lowerStep
    (stripStep (collapseStep (substStep (lowerStep s.data)))))))) = _
  rw [lowerStep_id _ hmemN, substStep_id _ hmemN, collapseStep_id _ hmemN hchN,
    stripStep_stripStep]
  rfl

/-! ### Behavior of the scan loop -/

theorem findLoop_stay (f : Agent → ℝ) (l : List Agent) :
    ∀ (b : Option Agent) (s : ℝ), (∀ a ∈ l, f a ≤ s) → findLoop f l (b, s) = (b, s) := by
  induction l with
  | nil => intro b s _; rfl
  | cons x rest ih =>
      intro b s h
      have hx : f x ≤ s := h x (by simp)
      simp only [findLoop]
      rw [if_neg (not_lt.mpr hx)]
      exact ih b s fun a ha => h a (List.mem_cons_of_mem _ ha)

theorem findLoop_found (f : Agent → ℝ) (l : List Agent) :
    ∀ (b : Option Agent) (s : ℝ), (∃ a ∈ l, s < f a) →
    ∃ l₁ a l₂, l = l₁ ++ a :: l₂ ∧
      findLoop f l (b, s) = (some a, f a) ∧ s < f a ∧
      (∀ x ∈ l₁, f x < f a) ∧ (∀ x ∈ l₂, f x ≤ f a) := by
  induction l with
  | nil =>
      intro b s h
      simp at h
  | cons x rest ih =>
      intro b s h
      by_cases hx : s < f x
      · simp only [findLoop]
        rw [if_pos hx]
        by_cases hrest : ∃ a ∈ rest, f x < f a
        · obtain ⟨l₁, a, l₂, heq, hloop, hlt, hbefore, hafter⟩ := ih (some x) (f x) hrest
          refine ⟨x :: l₁, a, l₂, by rw [heq]; rfl, hloop, lt_trans hx hlt, ?_, hafter⟩
          intro y hy
          rcases List.mem_cons.mp hy with rfl | hy2
          · exact hlt
          · exact hbefore y hy2
        · push_neg at hrest
          refine ⟨[], x, rest, by simp, ?_, hx, by simp, hrest⟩
          exact findLoop_stay f rest (some x) (f x) hrest
      · simp only [findLoop]
        rw [if_neg hx]
        have hrest : ∃ a ∈ rest, s < f a := by
          obtain ⟨a, ha, hsa⟩ := h
          rcases List.mem_cons.mp ha with rfl | ha2
          · exact absurd hsa hx
          · exact ⟨a, ha2, hsa⟩
        obtain ⟨l₁, a, l₂, heq, hloop, hlt, hbefore, hafter⟩ := ih b s hrest
        push_neg at hx
        refine ⟨x :: l₁, a, l₂, by rw [heq]; rfl, hloop, hlt, ?_, hafter⟩
        intro y hy
        rcases List.mem_cons.mp hy with rfl | hy2
        · exact lt_of_le_of_lt hx hlt
        · exact hbefore y hy2


/-! ### Registry lemmas -/

theorem findAgentIdx_none (n : Option String) (l : List Agent) :
    findAgentIdx n l = none ↔ ∀ r ∈ l, r.name ≠ n := by
  induction l with
  | nil => simp [findAgentIdx]
  | cons r rest ih =>
      simp only [findAgentIdx]
      by_cases h : r.name = n
      · simp [h]
      · simp [h, ih]

theorem findAgentIdx_some (n : Option String) (l : List Agent) (i : ℕ)
    (h : findAgentIdx n l = some i) :
    ∃ l₁ r l₂, l = l₁ ++ r :: l₂ ∧ l₁.length = i ∧ r.name = n ∧ ∀ b ∈ l₁, b.name ≠ n := by
  induction l generalizing i with
  | nil => simp [findAgentIdx] at h
  | cons r rest ih =>
      simp only [findAgentIdx] at h
      by_cases hr : r.name = n
      · rw [if_pos hr] at h
        obtain rfl : (0 : ℕ) = i := by simpa using h
        exact ⟨[], r, rest, rfl, rfl, hr, by simp⟩
      · rw [if_neg hr] at h
        cases hfi : findAgentIdx n rest with
        | none => rw [hfi] at h; simp at h
        | some j =>
            rw [hfi] at h
            simp only [Option.map_some', Option.some.injEq] at h
            obtain ⟨l₁, rr, l₂, heq, hlen, hname, hnot⟩ := ih j hfi
            refine ⟨r :: l₁, rr, l₂, by rw [heq]; rfl, by simp [hlen]; omega, hname, ?_⟩
            intro b hb
            rcases List.mem_cons.mp hb with rfl | hb2
            · exact hr
            · exact hnot b hb2

theorem set_append_length (l₁ : List Agent) (r : Agent) (l₂ : List Agent) (a : Agent) :
    (l₁ ++ r :: l₂).set l₁.length a = l₁ ++ a :: l₂ := by
  induction l₁ with
  | nil => rfl
  | cons x rest ih =>
      simp only [List.cons_append, List.length_cons, List.set_cons_succ]
      rw [ih]

theorem list_toFinset_sum_count (l : List String) :
    ∑ k ∈ l.toFinset, l.count k = l.length := by
  simpa using Multiset.toFinset_sum_count_eq (l : Multiset String)

theorem type_counts_fold (l : List Agent) (m : String → ℕ) (k : String) :
    (l.foldl (fun m ag k => if k = typeKey ag then m (typeKey ag) + 1 else m k) m) k =
      m k + (l.map typeKey).count k := by
  induction l generalizing m with
  | nil => simp
  | cons a rest ih =>
      simp only [List.foldl_cons, List.map_cons]
      rw [ih, List.count_cons]
      by_cases h : k = typeKey a
      · simp [h]
        omega
      · have hne : ¬(typeKey a == k) = true := by
          simp only [beq_iff_eq]
          exact fun hc => h hc.symm
        simp [h, hne]

theorem type_counts_eq_count (agents : List Agent) (k : String) :
    type_counts agents k = (agents.map typeKey).count k := by
  unfold type_counts
  rw [type_counts_fold]
  simp

/-! ### Claims about the registry -/

/-- **C3**: `save_agent` with a `name` already present in the stored
collection replaces the first record carrying that name in place,
preserving its position and the collection's length; with a fresh `name`
it appends the record, growing the length by exactly 1. -/
theorem save_agent_upsert (l : List Agent) (a : Agent) :
    ((∃ r ∈ l, r.name = a.name) →
      (save_agent a l).length = l.length ∧
      ∃ l₁ r l₂, l = l₁ ++ r :: l₂ ∧ r.name = a.name ∧
        (∀ b ∈ l₁, b.name ≠ a.name) ∧ save_agent a l = l₁ ++ a :: l₂) ∧
    ((∀ r ∈ l, r.name ≠ a.name) →
      save_agent a l = l ++ [a] ∧ (save_agent a l).length = l.length + 1) := by
  constructor
  · intro hex
    have hne : findAgentIdx a.name l ≠ none := by
      intro hnone
      obtain ⟨r, hr, hname⟩ := hex
      exact (findAgentIdx_none a.name l).mp hnone r hr hname
    cases hfi : findAgentIdx a.name l with
    | none => exact absurd hfi hne
    | some i =>
        obtain ⟨l₁, r, l₂, heq, hlen, hname, hnot⟩ := findAgentIdx_some a.name l i hfi
        have hsave : save_agent a l = l₁ ++ a :: l₂ := by
          unfold save_agent
          rw [hfi, heq]
          show (l₁ ++ r :: l₂).set i a = l₁ ++ a :: l₂
          rw [← hlen, set_append_length]
        refine ⟨?_, l₁, r, l₂, heq, hname, hnot, hsave⟩
        rw [hsave, heq]
        simp
  · intro hall
    have hfi : findAgentIdx a.name l = none := (findAgentIdx_none _ _).mpr hall
    unfold save_agent
    rw [hfi]
    simp

theorem save_agent_upsert_w :
    (save_agent agentB [agentB, agentE]).length = [agentB, agentE].length ∧
    save_agent agentB [agentE] = [agentE] ++ [agentB] ∧
    (save_agent agentB [agentE]).length = [agentE].length + 1 := by
  have h1 := (save_agent_upsert [agentB, agentE] agentB).1 ⟨agentB, by simp, rfl⟩
  have h2 := (save_agent_upsert [agentE] agentB).2 (by decide)
  exact ⟨h1.1, h2.1, h2.2⟩

/-- **C4** (code bug): the healing the claim describes happens only for a
missing file, a `json.JSONDecodeError`, or a parsed *object* lacking the
`agents` field.  A backing store whose bytes are not valid UTF-8, or
whose JSON parses to a non-object (which equally lacks the top-level
`agents` field), makes `_ensure_storage_file` raise to the caller
instead of resetting and persisting, because the `except` clause catches
only `json.JSONDecodeError` and `IOError`. -/
theorem ensure_storage_raises :
    _ensure_storage_file StoredFile.missing = Except.ok (StoredFile.valid (some [])) ∧
    _ensure_storage_file StoredFile.unparsable = Except.ok (StoredFile.valid (some [])) ∧
    _ensure_storage_file (StoredFile.valid none) = Except.ok (StoredFile.valid (some [])) ∧
    list_agents (StoredFile.valid (some [])) = [] ∧
    _ensure_storage_file StoredFile.undecodable = Except.error "UnicodeDecodeError" ∧
    _ensure_storage_file StoredFile.nonObject = Except.error "TypeError" :=
  ⟨rfl, rfl, rfl, rfl, rfl, rfl⟩

/-- **C7** (amended): `get_storage_stats` reports a total equal to the
length of the stored collection, the per-type counts sum to that total,
and a record with an *absent* `task_type` is counted under `"unknown"`;
a record whose `task_type` is present — even the empty string — is
counted under that exact value, not under `"unknown"`. -/
theorem get_storage_stats_spec (s : StoredFile) :
    (get_storage_stats s).total_agents = (list_agents s).length ∧
    (∑ k ∈ ((list_agents s).map typeKey).toFinset,
        (get_storage_stats s).agents_by_type k) = (get_storage_stats s).total_agents ∧
    (∀ a ∈ list_agents s, a.task_type = none → typeKey a = "unknown") ∧
    (∀ a ∈ list_agents s, ∀ t, a.task_type = some t → typeKey a = t) := by
  refine ⟨rfl, ?_, ?_, ?_⟩
  · have hc : ∀ k ∈ ((list_agents s).map typeKey).toFinset,
        (get_storage_stats s).agents_by_type k = ((list_agents s).map typeKey).count k :=
      fun k _ => type_counts_eq_count (list_agents s) k
    rw [Finset.sum_congr rfl hc, list_toFinset_sum_count]
    simp [get_storage_stats]
  · intro a _ h
    simp [typeKey, h]
  · intro a _ t h
    simp [typeKey, h]

theorem get_storage_stats_spec_w :
    (get_storage_stats (StoredFile.valid (some [agentB]))).total_agents =
      (list_agents (StoredFile.valid (some [agentB]))).length ∧
    typeKey agentB = "dddd" :=
  ⟨(get_storage_stats_spec (StoredFile.valid (some [agentB]))).1,
    (get_storage_stats_spec (StoredFile.valid (some [agentB]))).2.2.2 agentB
      (by simp [list_agents]) "dddd" rfl⟩

/-- **C7** counterexample: a record whose `task_type` is present but empty
(`agentE`) is counted under the key `""`, not under `"unknown"` — the
stats dictionary has no `"unknown"` entry for it. -/
theorem get_storage_stats_empty_type_cex :
    agentE.task_type = some "" ∧
    (get_storage_stats (StoredFile.valid (some [agentE]))).agents_by_type "unknown" = 0 ∧
    (get_storage_stats (StoredFile.valid (some [agentE]))).agents_by_type "" = 1 := by
  refine ⟨rfl, ?_, ?_⟩ <;> decide

/-! ### Claim about the orchestrator boundary -/

/-- **C2**: for every request and every behavior of the three external
capabilities — including raises and empty responses — `process_request`
returns a string (`Except.ok`): no raise escapes the boundary.  Moreover
each capability failure is mapped at its own call site to its defined
fallback value: a failed or empty analysis to the fixed default
descriptor, a failed or empty creation to the deterministic fallback
record, and a failed or empty response to the fixed reply strings. -/
theorem process_request_boundary (caps : Capabilities) (stored : List Agent)
    (request : String) :
    (∃ reply, process_request caps stored request = Except.ok reply) ∧
    (∀ e, caps.analyze = Except.error e → _analyze_task caps = fallback_analysis) ∧
    (caps.analyze = Except.ok none → _analyze_task caps = fallback_analysis) ∧
    (∀ ta e, caps.create = Except.error e → _create_new_agent caps ta = fallback_agent ta) ∧
    (∀ ta, caps.create = Except.ok none → _create_new_agent caps ta = fallback_agent ta) ∧
    (∀ a e, caps.respond = Except.error e → _delegate_task caps a = delegate_error_msg a e) ∧
    (∀ a, caps.respond = Except.ok none → _delegate_task caps a = delegate_empty_msg) ∧
    (∀ e, caps.direct = Except.error e → _handle_directly caps = direct_error_msg e) ∧
    (caps.direct = Except.ok none → _handle_directly caps = direct_empty_msg) := by
  refine ⟨?_, ?_, ?_, ?_, ?_, ?_, ?_, ?_, ?_⟩
  · unfold process_request
    cases process_request_body caps stored with
    | ok r => exact ⟨r, rfl⟩
    | error e => exact ⟨boundary_error_msg e, rfl⟩
  · intro e h
    unfold _analyze_task
    rw [h]
  · intro h
    unfold _analyze_task
    rw [h]
  · intro ta e h
    unfold _create_new_agent
    rw [h]
  · intro ta h
    unfold _create_new_agent
    rw [h]
  · intro a e h
    unfold _delegate_task
    rw [h]
  · intro a h
    unfold _delegate_task
    rw [h]
  · intro e h
    unfold _handle_directly
    rw [h]
  · intro h
    unfold _handle_directly
    rw [h]

theorem process_request_boundary_w :
    (∃ reply, process_request capsFail [] "hello" = Except.ok reply) ∧
    _analyze_task capsFail = fallback_analysis ∧
    _create_new_agent capsFail fallback_analysis = fallback_agent fallback_analysis ∧
    _delegate_task capsFail agentB = delegate_error_msg agentB "x" ∧
    _handle_directly capsFail = direct_error_msg "x" := by
  obtain ⟨h1, h2, _, h4, _, h6, _, h8, _⟩ := process_request_boundary capsFail [] "hello"
  exact ⟨h1, h2 "x" rfl, h4 fallback_analysis "x" rfl, h6 agentB "x" rfl, h8 "x" rfl⟩

/-! ### Concrete evaluations of the scorer -/

theorem jacc_zero : _jaccard_similarity "aaaa" (agentText agentB) = 0 := by
  have h1 : (tokenSet "aaaa" ∩ tokenSet (agentText agentB)).card = 0 := by decide
  have h2 : (tokenSet "aaaa" ∪ tokenSet (agentText agentB)).card = 4 := by decide
  simp only [_jaccard_similarity]
  rw [if_neg (by decide), if_neg (by decide), if_pos (by rw [h2]; norm_num), h1, h2]
  norm_num

theorem kw_zero : _keyword_overlap_similarity "aaaa" (agentText agentB) = 0 := by
  have h1 : (keywordSet "aaaa" ∩ keywordSet (agentText agentB)).card = 0 := by decide
  have h2 : max (keywordSet "aaaa").card (keywordSet (agentText agentB)).card = 3 := by decide
  simp only [_keyword_overlap_similarity]
  rw [if_neg (by decide), if_neg (by decide), if_pos (by rw [h2]; norm_num), h1, h2]
  norm_num

theorem cos_zero : _cosine_similarity_simple "aaaa" (agentText agentB) = 0 := by
  simp only [_cosine_similarity_simple]
  rw [if_neg (by decide)]
  have hdot : cosDot "aaaa" (agentText agentB) = 0 := by decide
  rw [hdot]
  by_cases h : cosMag "aaaa" (cosVocab "aaaa" (agentText agentB)) = 0 ∨
      cosMag (agentText agentB) (cosVocab "aaaa" (agentText agentB)) = 0
  · rw [if_pos h]
  · rw [if_neg h]
    norm_num

theorem sim_zero : _calculate_similarity "aaaa" agentB = 0 := by
  simp only [_calculate_similarity, List.zip_cons_cons, List.zip_nil_left,
    List.map_cons, List.map_nil, List.sum_cons, List.sum_nil]
  rw [jacc_zero, kw_zero, cos_zero]
  norm_num

theorem jacc_one : _jaccard_similarity "cccc dddd bbbb" (agentText agentB) = 1 := by
  have h1 : (tokenSet "cccc dddd bbbb" ∩ tokenSet (agentText agentB)).card = 3 := by decide
  have h2 : (tokenSet "cccc dddd bbbb" ∪ tokenSet (agentText agentB)).card = 3 := by decide
  simp only [_jaccard_similarity]
  rw [if_neg (by decide), if_neg (by decide), if_pos (by rw [h2]; norm_num), h1, h2]
  norm_num

theorem kw_one : _keyword_overlap_similarity "cccc dddd bbbb" (agentText agentB) = 1 := by
  have h1 : (keywordSet "cccc dddd bbbb" ∩ keywordSet (agentText agentB)).card = 3 := by decide
  have h2 : max (keywordSet "cccc dddd bbbb").card (keywordSet (agentText agentB)).card = 3 := by
    decide
  simp only [_keyword_overlap_similarity]
  rw [if_neg (by decide), if_neg (by decide), if_pos (by rw [h2]; norm_num), h1, h2]
  norm_num

theorem cos_one : _cosine_similarity_simple "cccc dddd bbbb" (agentText agentB) = 1 := by
  have hsum1 : ((cosVec "cccc dddd bbbb" (cosVocab "cccc dddd bbbb" (agentText agentB))).map
      fun x => x * x).sum = 3 := by decide
  have hsum2 : ((cosVec (agentText agentB) (cosVocab "cccc dddd bbbb" (agentText agentB))).map
      fun x => x * x).sum = 3 := by decide
  have hdot : cosDot "cccc dddd bbbb" (agentText agentB) = 3 := by decide
  have hmag1 : cosMag "cccc dddd bbbb" (cosVocab "cccc dddd bbbb" (agentText agentB)) =
      Real.sqrt 3 := by
    unfold cosMag
    rw [hsum1]
    norm_num
  have hmag2 : cosMag (agentText agentB) (cosVocab "cccc dddd bbbb" (agentText agentB)) =
      Real.sqrt 3 := by
    unfold cosMag
    rw [hsum2]
    norm_num
  have hs3 : Real.sqrt 3 ≠ 0 := by
    rw [Real.sqrt_ne_zero']
    norm_num
  simp only [_cosine_similarity_simple]
  rw [if_neg (by decide), hdot, hmag1, hmag2, if_neg (by simp [hs3])]
  rw [Real.mul_self_sqrt (by norm_num)]
  norm_num

theorem sim_one : _calculate_similarity "cccc dddd bbbb" agentB = 1 := by
  simp only [_calculate_similarity, List.zip_cons_cons, List.zip_nil_left,
    List.map_cons, List.map_nil, List.sum_cons, List.sum_nil]
  rw [jacc_one, kw_one, cos_one]
  norm_num

/-! ### Characterization of `find_similar_agent` -/

theorem find_some_char (threshold : ℝ) (query : String) (agents : List Agent) (a : Agent)
    (h : find_similar_agent threshold query agents = some a) :
    a ∈ agents ∧
    (∀ b ∈ agents, _calculate_similarity query b ≤ _calculate_similarity query a) ∧
    threshold ≤ _calculate_similarity query a ∧
    (0.09 : ℝ) < _calculate_similarity query a ∧
    ∃ l₁ l₂, agents = l₁ ++ a :: l₂ ∧
      (∀ b ∈ l₁, _calculate_similarity query b < _calculate_similarity query a) ∧
      (∀ b ∈ l₂, _calculate_similarity query b ≤ _calculate_similarity query a) := by
  by_cases hnil : agents = []
  · subst hnil
    simp [find_similar_agent] at h
  · unfold find_similar_agent at h
    rw [if_neg hnil] at h
    by_cases hex : ∃ x ∈ agents, (0.09 : ℝ) < _calculate_similarity query x
    · obtain ⟨l₁, a2, l₂, heq, hloop, hlt, hbefore, hafter⟩ :=
        findLoop_found (fun ag => _calculate_similarity query ag) agents none 0.09 hex
      rw [hloop] at h
      by_cases hth : threshold ≤ _calculate_similarity query a2
      · rw [if_pos ⟨hth, by simp⟩] at h
        obtain rfl : a2 = a := by simpa using h
        refine ⟨?_, ?_, hth, hlt, l₁, l₂, heq, hbefore, hafter⟩
        · rw [heq]
          exact List.mem_append_right _ (List.mem_cons_self _ _)
        · intro b hb
          rw [heq] at hb
          rcases List.mem_append.mp hb with h1 | h2
          · exact le_of_lt (hbefore b h1)
          · rcases List.mem_cons.mp h2 with rfl | h3
            · exact le_refl _
            · exact hafter b h3
      · rw [if_neg (fun hc => hth hc.1)] at h
        exact absurd h (by simp)
    · push_neg at hex
      rw [findLoop_stay _ agents none 0.09 hex] at h
      simp at h

theorem find_pos (threshold : ℝ) (query : String) (agents : List Agent) (a : Agent)
    (ha : a ∈ agents)
    (hmax : ∀ b ∈ agents, _calculate_similarity query b ≤ _calculate_similarity query a)
    (hth : threshold ≤ _calculate_similarity query a)
    (h009 : (0.09 : ℝ) < _calculate_similarity query a) :
    ∃ a2, find_similar_agent threshold query agents = some a2 ∧
      _calculate_similarity query a2 = _calculate_similarity query a := by
  have hnil : agents ≠ [] := by
    intro hc
    rw [hc] at ha
    exact absurd ha (List.not_mem_nil a)
  obtain ⟨l₁, a2, l₂, heq, hloop, hlt, hbefore, hafter⟩ :=
    findLoop_found (fun ag => _calculate_similarity query ag) agents none 0.09
      ⟨a, ha, h009⟩
  have hle : _calculate_similarity query a2 ≤ _calculate_similarity query a :=
    hmax a2 (by rw [heq]; exact List.mem_append_right _ (List.mem_cons_self _ _))
  have hge : _calculate_similarity query a ≤ _calculate_similarity query a2 := by
    rw [heq] at ha
    rcases List.mem_append.mp ha with h1 | h2
    · exact le_of_lt (hbefore a h1)
    · rcases List.mem_cons.mp h2 with rfl | h3
      · exact le_refl _
      · exact hafter a h3
  have heqsim : _calculate_similarity query a2 = _calculate_similarity query a :=
    le_antisymm hle hge
  refine ⟨a2, ?_, heqsim⟩
  unfold find_similar_agent
  rw [if_neg hnil, hloop, if_pos ⟨by simpa [heqsim] using hth, by simp⟩]

theorem find_cex_eval : find_similar_agent 0 "aaaa" [agentB] = none := by
  unfold find_similar_agent
  rw [if_neg (by simp)]
  have hloop : findLoop (fun ag => _calculate_similarity "aaaa" ag) [agentB]
      (none, 0.09) = (none, 0.09) := by
    apply findLoop_stay
    intro b hb
    rw [List.mem_singleton] at hb
    subst hb
    show _calculate_similarity "aaaa" agentB ≤ 0.09
    rw [sim_zero]
    norm_num
  rw [hloop]
  simp

theorem find_two_eval :
    find_similar_agent 0.09 "cccc dddd bbbb" [agentB, agentB] = some agentB := by
  have h1 : (0.09 : ℝ) < _calculate_similarity "cccc dddd bbbb" agentB := by
    rw [sim_one]
    norm_num
  unfold find_similar_agent
  rw [if_neg (by simp)]
  simp only [findLoop]
  rw [if_pos h1, if_neg (lt_irrefl _)]
  rw [if_pos ⟨le_of_lt h1, by simp⟩]

theorem find_low_eval :
    find_similar_agent 0.05 "cccc dddd bbbb" [agentB] = some agentB := by
  have h1 : (0.09 : ℝ) < _calculate_similarity "cccc dddd bbbb" agentB := by
    rw [sim_one]
    norm_num
  unfold find_similar_agent
  rw [if_neg (by simp)]
  simp only [findLoop]
  rw [if_pos h1]
  refine if_pos ⟨?_, by simp⟩
  rw [sim_one]
  norm_num

/-! ### Claims about the matcher -/

/-- **C1** counterexample: with configured threshold `0`, a one-record
registry whose (maximal) score is `0 >= 0` — the claim demands the record
be returned, but the matcher returns `none`, because the running best is
initialized to the hardcoded `0.09` and the record never beats it. -/
theorem find_similar_agent_threshold_cex :
    _calculate_similarity "aaaa" agentB = 0 ∧
    (∀ b ∈ [agentB], _calculate_similarity "aaaa" b ≤ _calculate_similarity "aaaa" agentB) ∧
    (0 : ℝ) ≤ _calculate_similarity "aaaa" agentB ∧
    find_similar_agent 0 "aaaa" [agentB] = none := by
  refine ⟨sim_zero, ?_, by rw [sim_zero], find_cex_eval⟩
  intro b hb
  rw [List.mem_singleton] at hb
  subst hb
  exact le_refl _

/-- **C1** (amended): an empty snapshot yields `none` for every query and
threshold; a returned record attains the maximal score, and a record is
returned if and only if the maximal score is `>= threshold` **and**
strictly greater than the hardcoded initial best score `0.09`. -/
theorem find_similar_agent_spec (threshold : ℝ) (query : String) (agents : List Agent) :
    find_similar_agent threshold query [] = none ∧
    (∀ a, find_similar_agent threshold query agents = some a →
      a ∈ agents ∧
      (∀ b ∈ agents, _calculate_similarity query b ≤ _calculate_similarity query a) ∧
      threshold ≤ _calculate_similarity query a ∧
      (0.09 : ℝ) < _calculate_similarity query a) ∧
    (∀ a, a ∈ agents →
      (∀ b ∈ agents, _calculate_similarity query b ≤ _calculate_similarity query a) →
      threshold ≤ _calculate_similarity query a →
      (0.09 : ℝ) < _calculate_similarity query a →
      ∃ a2, find_similar_agent threshold query agents = some a2 ∧
        _calculate_similarity query a2 = _calculate_similarity query a) := by
  refine ⟨by simp [find_similar_agent], ?_, ?_⟩
  · intro a h
    obtain ⟨h1, h2, h3, h4, _⟩ := find_some_char threshold query agents a h
    exact ⟨h1, h2, h3, h4⟩
  · intro a ha hmax hth h009
    exact find_pos threshold query agents a ha hmax hth h009

theorem find_similar_agent_spec_w :
    ∃ a2, find_similar_agent 0.09 "cccc dddd bbbb" [agentB] = some a2 ∧
      _calculate_similarity "cccc dddd bbbb" a2 =
        _calculate_similarity "cccc dddd bbbb" agentB := by
  apply (find_similar_agent_spec 0.09 "cccc dddd bbbb" [agentB]).2.2 agentB (by simp)
  · intro b hb
    rw [List.mem_singleton] at hb
    subst hb
    exact le_refl _
  · rw [sim_one]
    norm_num
  · rw [sim_one]
    norm_num

/-- **C5**: whenever the matcher returns a record, that record is the
earliest one in the snapshot's stored order attaining the maximal score:
every earlier record scores strictly less and every later record scores
at most as much — so with tied maximal scores the first-inserted record
wins, deterministically, with no secondary key. -/
theorem find_similar_agent_tie_break (threshold : ℝ) (query : String) (agents : List Agent)
    (a : Agent) (h : find_similar_agent threshold query agents = some a) :
    ∃ l₁ l₂, agents = l₁ ++ a :: l₂ ∧
      (∀ b ∈ l₁, _calculate_similarity query b < _calculate_similarity query a) ∧
      (∀ b ∈ l₂, _calculate_similarity query b ≤ _calculate_similarity query a) :=
  (find_some_char threshold query agents a h).2.2.2.2

theorem find_similar_agent_tie_break_w :
    ∃ l₁ l₂, [agentB, agentB] = l₁ ++ agentB :: l₂ ∧
      (∀ b ∈ l₁, _calculate_similarity "cccc dddd bbbb" b <
        _calculate_similarity "cccc dddd bbbb" agentB) ∧
      (∀ b ∈ l₂, _calculate_similarity "cccc dddd bbbb" b ≤
        _calculate_similarity "cccc dddd bbbb" agentB) :=
  find_similar_agent_tie_break 0.09 "cccc dddd bbbb" [agentB, agentB] agentB find_two_eval

/-- **C10**: for every configured threshold (including thresholds below
`0.09`), any record the matcher returns scores strictly above the
hardcoded initial best score `0.09`: a candidate scoring exactly `0.09`
or lower is never returned. -/
theorem find_similar_agent_floor (threshold : ℝ) (query : String) (agents : List Agent)
    (a : Agent) (h : find_similar_agent threshold query agents = some a) :
    (0.09 : ℝ) < _calculate_similarity query a :=
  (find_some_char threshold query agents a h).2.2.2.1

theorem find_similar_agent_floor_w :
    (0.09 : ℝ) < _calculate_similarity "cccc dddd bbbb" agentB :=
  find_similar_agent_floor 0.05 "cccc dddd bbbb" [agentB] agentB find_low_eval

/-! ### Claims about the scorer -/

/-- **C6**: the combined similarity score equals the weighted sum of the
Jaccard, keyword-overlap and cosine sub-metrics with weights 0.4, 0.3,
0.3, clamped to at most 1.0 — hence the score never exceeds 1 for any
query and agent. -/
theorem calculate_similarity_clamped (query : String) (agent : Agent) :
    _calculate_similarity query agent =
      min (0.4 * ((_jaccard_similarity query (agentText agent) : ℚ) : ℝ) +
        0.3 * ((_keyword_overlap_similarity query (agentText agent) : ℚ) : ℝ) +
        0.3 * _cosine_similarity_simple query (agentText agent)) 1 ∧
    _calculate_similarity query agent ≤ 1 := by
  constructor
  · simp only [_calculate_similarity, List.zip_cons_cons, List.zip_nil_left,
      List.map_cons, List.map_nil, List.sum_cons, List.sum_nil]
    ring_nf
  · simp only [_calculate_similarity]
    exact min_le_right _ _

theorem cosMag_of_nil (t : String) (vocab : List String) (h : pyWords t = []) :
    cosMag t vocab = 0 := by
  unfold cosMag cosVec
  rw [h]
  have hz : (((vocab.map fun w => ([] : List String).count w).map fun x => x * x).sum : ℕ) = 0 := by
    apply List.sum_eq_zero
    intro x hx
    simp only [List.map_map, List.mem_map, Function.comp] at hx
    obtain ⟨w, _, rfl⟩ := hx
    simp
  rw [hz]
  simp

theorem cosMag_ne_zero (t : String) (vocab : List String) (w : String)
    (hw : w ∈ pyWords t) (hv : w ∈ vocab) : cosMag t vocab ≠ 0 := by
  unfold cosMag
  rw [Real.sqrt_ne_zero']
  have hc : 0 < (pyWords t).count w := List.count_pos_iff_mem.mpr hw
  have hmem : (pyWords t).count w * (pyWords t).count w ∈
      ((cosVec t vocab).map fun x => x * x) := by
    apply List.mem_map_of_mem
    unfold cosVec
    exact List.mem_map_of_mem _ hv
  have hsum : (pyWords t).count w * (pyWords t).count w ≤
      ((cosVec t vocab).map fun x => x * x).sum :=
    List.single_le_sum (fun x _ => Nat.zero_le x) _ hmem
  have hpos : 0 < (((cosVec t vocab).map fun x => x * x).sum : ℕ) :=
    lt_of_lt_of_le (Nat.mul_pos hc hc) hsum
  exact_mod_cast hpos

/-- **C8** (amended): the cosine sub-metric builds integer term-frequency
vectors over the deduplicated vocabulary of both token lists and returns
the dot product divided by the product of the Euclidean norms; it returns
`0.0` whenever either vector has zero norm — equivalently whenever
exactly one of the texts normalizes to no tokens — but when *both* texts
normalize to no tokens (empty vocabulary) it returns `1.0`, not `0.0`. -/
theorem cosine_similarity_norms (text1 text2 : String) :
    (pyWords text1 = [] ∧ pyWords text2 = [] → _cosine_similarity_simple text1 text2 = 1) ∧
    (pyWords text1 = [] ∧ pyWords text2 ≠ [] → _cosine_similarity_simple text1 text2 = 0) ∧
    (pyWords text1 ≠ [] ∧ pyWords text2 = [] → _cosine_similarity_simple text1 text2 = 0) ∧
    (pyWords text1 ≠ [] → pyWords text2 ≠ [] →
      cosMag text1 (cosVocab text1 text2) ≠ 0 ∧
      cosMag text2 (cosVocab text1 text2) ≠ 0 ∧
      _cosine_similarity_simple text1 text2 = (cosDot text1 text2 : ℝ) /
        (cosMag text1 (cosVocab text1 text2) * cosMag text2 (cosVocab text1 text2))) := by
  refine ⟨?_, ?_, ?_, ?_⟩
  · rintro ⟨h1, h2⟩
    unfold _cosine_similarity_simple
    rw [if_pos (by unfold cosVocab; rw [h1, h2]; rfl)]
  · rintro ⟨h1, h2⟩
    have hvocne : cosVocab text1 text2 ≠ [] := by
      unfold cosVocab
      intro hc
      rw [List.dedup_eq_nil, h1, List.nil_append] at hc
      exact h2 hc
    unfold _cosine_similarity_simple
    rw [if_neg hvocne, if_pos (Or.inl (cosMag_of_nil _ _ h1))]
  · rintro ⟨h1, h2⟩
    have hvocne : cosVocab text1 text2 ≠ [] := by
      unfold cosVocab
      intro hc
      rw [List.dedup_eq_nil, List.append_eq_nil] at hc
      exact h1 hc.1
    unfold _cosine_similarity_simple
    rw [if_neg hvocne, if_pos (Or.inr (cosMag_of_nil _ _ h2))]
  · intro h1 h2
    obtain ⟨w1, hw1⟩ := List.exists_mem_of_ne_nil _ h1
    obtain ⟨w2, hw2⟩ := List.exists_mem_of_ne_nil _ h2
    have hv1 : w1 ∈ cosVocab text1 text2 :=
      List.mem_dedup.mpr (List.mem_append_left _ hw1)
    have hv2 : w2 ∈ cosVocab text1 text2 :=
      List.mem_dedup.mpr (List.mem_append_right _ hw2)
    have hm1 := cosMag_ne_zero text1 _ w1 hw1 hv1
    have hm2 := cosMag_ne_zero text2 _ w2 hw2 hv2
    refine ⟨hm1, hm2, ?_⟩
    unfold _cosine_similarity_simple
    rw [if_neg (List.ne_nil_of_mem hv1), if_neg (by
      push_neg
      exact ⟨hm1, hm2⟩)]

theorem cosine_similarity_norms_w : _cosine_similarity_simple "" "ab" = 0 :=
  (cosine_similarity_norms "" "ab").2.1 ⟨by decide, by decide⟩

/-- **C8** counterexample: both texts normalize to no tokens, so both
term-frequency vectors have zero norm, yet the metric returns `1.0`
(the empty-vocabulary branch), not `0.0` as the claim requires. -/
theorem cosine_similarity_both_empty_cex :
    pyWords "" = [] ∧ _cosine_similarity_simple "" "" = 1 ∧
    _cosine_similarity_simple "" "" ≠ 0 := by
  refine ⟨by decide, ?_, ?_⟩
  · unfold _cosine_similarity_simple
    rw [if_pos (by decide)]
  · unfold _cosine_similarity_simple
    rw [if_pos (by decide)]
    norm_num

/-! ### Claim about the normalizer -/

/-- **C9**: `_normalize_text` is idempotent on every input string, and is
case- and punctuation-insensitive, e.g. it sends `"Hello, World!"` and
`"hello world"` to the same normalized text. -/
theorem normalize_text_spec (x : String) :
    normalize_text (normalize_text x) = normalize_text x ∧
    normalize_text "Hello, World!" = normalize_text "hello world" :=
  ⟨normalize_text_idem x, by decide⟩
